import Mathlib

set_option maxRecDepth 8000

/-!
Verification of the make-singer audio-service mastering pipeline
(`src/audio-service/services/master.py`) against its specification.

The repository code operates on pydub `AudioSegment` values.  The pydub
primitives themselves (silence synthesis, overlay, dB gain, filters,
compressor, normalization) are an external library: they are modelled here
from the specification's description of them, while everything in
`master.py` (the mixing fold, mute/solo filtering, volume conversion, the
mastering chain ordering, the limiter arithmetic, profile selection and the
LUFS metric) is translated directly from the source.  Amplitudes are
idealized as real numbers, gains in dB act multiplicatively by `10 ^ (g/20)`.
-/

namespace MakeSinger

noncomputable section

/-- Model of a decoded audio buffer (pydub `AudioSegment`): sample rate in
frames per second, interleaved channel count, sample width in bytes, and the
interleaved raw sample amplitudes. -/
structure AudioSegment where
  frameRate : ℕ
  channels : ℕ
  sampleWidth : ℕ
  samples : List ℝ

instance : Inhabited AudioSegment := ⟨⟨0, 1, 2, []⟩⟩

/-- Length of a buffer in frames (`lengthInFrames` of the spec):
interleaved sample count divided by the channel count. -/
def framesOf (b : AudioSegment) : ℕ := b.samples.length / b.channels

/-- Full-scale amplitude implied by the bit depth, as in the source's
`2 ** (sample_width * 8 - 1)` (pydub `max_possible_amplitude`). -/
def maxPossibleAmp (b : AudioSegment) : ℝ := (2 : ℝ) ^ ((8 * b.sampleWidth : ℤ) - 1)

/-- Peak amplitude: the maximum absolute sample magnitude over the buffer
(0 for an empty buffer). -/
def peakAmp (b : AudioSegment) : ℝ := (b.samples.map (fun x => |x|)).foldr max 0

/-- Multiply every sample by a constant factor, keeping the metadata. -/
def scaleSamples (c : ℝ) (b : AudioSegment) : AudioSegment :=
  AudioSegment.mk b.frameRate b.channels b.sampleWidth (b.samples.map (fun x => c * x))

/-- Apply a gain of `g` dB to every sample (pydub `seg.apply_gain(g)` /
`seg + g`): multiply the amplitudes by `10 ^ (g / 20)`. -/
def applyGainDb (g : ℝ) (b : AudioSegment) : AudioSegment :=
  scaleSamples ((10 : ℝ) ^ (g / 20)) b

/-- Peak level in dBFS (pydub `max_dBFS`): the peak amplitude relative to
full scale, in decibels.  Only meaningful when the peak is positive (pydub
reports negative infinity for silence; the code below guards uses of this
value by `0 < peakAmp`). -/
def maxDBFS (b : AudioSegment) : ℝ :=
  20 * Real.logb 10 (peakAmp b / maxPossibleAmp b)

/-- Modelled from the spec: overlay of interleaved sample lists is the
additive combination of sample amplitudes aligned at position 0; the
spec's overlay extends to the longer of the two operands, the shorter
one's contribution ending exactly at its own length. -/
def overlaySamples (a b : List ℝ) : List ℝ :=
  (List.range (max a.length b.length)).map (fun i => a.getD i 0 + b.getD i 0)

/-- Modelled from the spec: pydub `base.overlay(other)` at position 0.
Sample amplitudes are added pointwise; the metadata is the base's (the
spec assumes the operands are already conformant in rate and channels). -/
def overlay (base other : AudioSegment) : AudioSegment :=
  AudioSegment.mk base.frameRate base.channels base.sampleWidth
    (overlaySamples base.samples other.samples)

/-- Modelled from the spec: `AudioSegment.silent` as used by `_mix_stems` —
an all-zero buffer of the given length in frames with the same channel
count and sample rate (and sample width) as the template stem. -/
def silentLike (template : AudioSegment) (frames : ℕ) : AudioSegment :=
  AudioSegment.mk template.frameRate template.channels template.sampleWidth
    (List.replicate (frames * template.channels) 0)

/-- Per-stem mix settings dictionary (`MixChannelSetting`): the source reads
the keys `volume`, `pan`, `mute`, `solo` with defaults 1.0, 0.0, False,
False. -/
structure MixSetting where
  volume : ℝ
  pan : ℝ
  mute : Bool
  solo : Bool

/-- Defaults used for a missing settings entry (`settings = {}` in the
source loop): volume 1.0, pan 0.0, mute and solo false. -/
instance : Inhabited MixSetting := ⟨⟨1, 0, false, false⟩⟩

/-- The setting applied to stem `i`: `mix_settings[i] if i < len(mix_settings)
else {}` from the source. -/
def settingFor (settings : List MixSetting) (i : ℕ) : MixSetting :=
  settings.getD i default

/-- Volume step of the source loop: `if volume != 1.0: stem = stem +
20 * log10(max(volume, 0.001))`. -/
def volumeStep (volume : ℝ) (stem : AudioSegment) : AudioSegment :=
  if volume ≠ 1 then applyGainDb (20 * Real.logb 10 (max volume 0.001)) stem else stem

/-- Modelled from the spec: pydub's `stem.pan(p)` — an equal-power style
stereo weighting keyed by `p` (the spec leaves the exact weighting to the
implementation); mono buffers are unaffected. -/
def panWeighted (p : ℝ) (b : AudioSegment) : AudioSegment :=
  if b.channels = 2 then
    AudioSegment.mk b.frameRate b.channels b.sampleWidth
      (b.samples.mapIdx (fun i x =>
        (if i % 2 = 0 then Real.sqrt 2 * Real.cos ((p + 1) * (Real.pi / 4))
         else Real.sqrt 2 * Real.sin ((p + 1) * (Real.pi / 4))) * x))
  else b

/-- Pan step of the source loop: `if pan != 0.0: stem = stem.pan(pan)`. -/
def panStep (p : ℝ) (stem : AudioSegment) : AudioSegment :=
  if p ≠ 0 then panWeighted p stem else stem

/-- One iteration of the `_mix_stems` loop body for a single stem: `none`
when the stem is skipped (muted, or suppressed because some other track is
soloed and this one is not), otherwise the stem after the volume and pan
steps. -/
def stemContribution (hasSolo : Bool) (s : MixSetting) (stem : AudioSegment) :
    Option AudioSegment :=
  if s.mute then none
  else if hasSolo && !s.solo then none
  else some (panStep s.pan (volumeStep s.volume stem))

/-- Maximum stem length in frames: `max(len(s) for s in stems)`. -/
def maxFrames (stems : List AudioSegment) : ℕ :=
  (stems.map framesOf).foldr max 0

/-- The longest stem (the first one attaining the maximum length), used by
the spec-modelled silence synthesis as the format template. -/
def longestStem (stems : List AudioSegment) : AudioSegment :=
  (stems.find? (fun s => decide (maxFrames stems ≤ framesOf s))).getD default

/-- The accumulation loop of `_mix_stems`: fold the indexed stems over the
accumulating mix, overlaying each contributing stem. -/
def mixFold (hasSolo : Bool) (settings : List MixSetting)
    (pairs : List (ℕ × AudioSegment)) (acc : AudioSegment) : AudioSegment :=
  pairs.foldl (fun m p =>
    match stemContribution hasSolo (settingFor settings p.1) p.2 with
    | none => m
    | some st => overlay m st) acc

/-- Body of `_mix_stems` after the empty-stems check: compute `has_solo`,
start from silence matching the longest stem, and fold the stems in. -/
def mixStemsCore (stems : List AudioSegment) (settings : List MixSetting) :
    AudioSegment :=
  mixFold (settings.any (fun s => s.solo)) settings stems.enum
    (silentLike (longestStem stems) (maxFrames stems))

/-- `_mix_stems`: raises `ValueError("No stems provided")` on an empty stem
list, otherwise mixes the stems according to the settings. -/
def mixStems (stems : List AudioSegment) (settings : List MixSetting) :
    Except String AudioSegment :=
  if stems.isEmpty then Except.error ("No stems provided")
  else Except.ok (mixStemsCore stems settings)

/-- One vocal take as seen by `_load_vocals` after download and decode: the
decoded buffer together with the take's `volume` (default 1.0). -/
structure VocalTake where
  buffer : AudioSegment
  volume : ℝ

/-- `_load_vocals`: returns `none` when the take list is empty or no storage
collaborator is configured; otherwise applies each take's volume gain (the
same formula as the stem volume step) and additively overlays the takes in
input order, the first take establishing the base buffer.  Downloading and
decoding are external I/O and are represented by the takes already holding
decoded buffers. -/
def loadVocals (storageConfigured : Bool) (takes : List VocalTake) :
    Option AudioSegment :=
  if takes.isEmpty || !storageConfigured then none
  else
    takes.foldl (fun acc t =>
      let vocal := volumeStep t.volume t.buffer
      match acc with
      | none => some vocal
      | some c => some (overlay c vocal)) none

/-- The vocal branch of `process`: `if vocal_takes: vocal_audio =
_load_vocals(...); if vocal_audio: mixed = mixed.overlay(vocal_audio)`. -/
def addVocals (storageConfigured : Bool) (mixed : AudioSegment)
    (takes : List VocalTake) : AudioSegment :=
  if takes.isEmpty then mixed
  else
    match loadVocals storageConfigured takes with
    | some v => overlay mixed v
    | none => mixed

/-- A mastering profile entry of the `PROFILES` table: EQ gains (low, mid,
high, in dB), compression threshold (dB) and ratio, limiter threshold
(dBFS) and target LUFS. -/
structure MasteringProfile where
  eqLow : ℝ
  eqMid : ℝ
  eqHigh : ℝ
  compressionThreshold : ℝ
  compressionRatio : ℝ
  limiterThreshold : ℝ
  targetLufs : ℝ

/-- The `clean` profile of the `PROFILES` table. -/
def cleanProfile : MasteringProfile := ⟨0, 0, 0, -20, 2, -1, -14⟩

/-- The `warm` profile of the `PROFILES` table. -/
def warmProfile : MasteringProfile := ⟨2, -1, -1, -18, 3, -0.5, -12⟩

/-- The `loud` profile of the `PROFILES` table. -/
def loudProfile : MasteringProfile := ⟨1, 1, 2, -15, 4, -0.3, -10⟩

/-- Lookup in the `PROFILES` dictionary by name. -/
def lookupProfile (name : String) : Option MasteringProfile :=
  if name = "clean" then some cleanProfile
  else if name = "warm" then some warmProfile
  else if name = "loud" then some loudProfile
  else none

/-- Profile selection of `process`: `if profile not in PROFILES: profile =
"clean"` followed by `PROFILES[profile]`. -/
def selectProfile (name : String) : MasteringProfile :=
  match lookupProfile name with
  | some s => s
  | none => cleanProfile

/-- The external pydub DSP primitives used by `_apply_mastering`
(`low_pass_filter`, `high_pass_filter`, `compress_dynamic_range`).  They are
library collaborators outside the repository; the spec leaves their exact
numerics to the implementation, so the development is parametric in them. -/
structure PydubFx where
  lowPassFilter : ℕ → AudioSegment → AudioSegment
  highPassFilter : ℕ → AudioSegment → AudioSegment
  compressDynamicRange : ℝ → ℝ → AudioSegment → AudioSegment

/-- A trivial instantiation of the external DSP primitives, used to
evaluate the parametric theorems at concrete inputs. -/
def pydubFxId : PydubFx := ⟨fun _ b => b, fun _ b => b, fun _ _ b => b⟩

/-- The EQ stage of `_apply_mastering`: `if eq["low"] != 0: audio =
audio.low_pass_filter(200) + eq["low"]`, then likewise for the high band
with `high_pass_filter(8000)`, the high branch applied to the result of the
low branch. -/
def eqStage (P : PydubFx) (s : MasteringProfile) (audio : AudioSegment) :
    AudioSegment :=
  let a1 := if s.eqLow ≠ 0 then applyGainDb s.eqLow (P.lowPassFilter 200 audio)
            else audio
  if s.eqHigh ≠ 0 then applyGainDb s.eqHigh (P.highPassFilter 8000 a1) else a1

/-- Modelled from the spec: pydub `normalize` — scale the buffer uniformly
so its peak sample reaches full scale (0 dBFS); a buffer with zero peak is
returned unchanged. -/
def normalizeSeg (b : AudioSegment) : AudioSegment :=
  if peakAmp b = 0 then b else scaleSamples (maxPossibleAmp b / peakAmp b) b

/-- The limiter stage of `_apply_mastering`: `if audio.max_dBFS >
limiter_threshold: audio = audio - (audio.max_dBFS - limiter_threshold)`.
Pydub's `max_dBFS` is negative infinity on silence, so the comparison is
vacuously false there; this is encoded by the `0 < peakAmp` conjunct. -/
def limitStage (thr : ℝ) (b : AudioSegment) : AudioSegment :=
  if 0 < peakAmp b ∧ thr < maxDBFS b then applyGainDb (-(maxDBFS b - thr)) b
  else b

/-- The mastering chain up to but excluding the limiter: EQ, then
compression, then normalization. -/
def preLimit (P : PydubFx) (s : MasteringProfile) (audio : AudioSegment) :
    AudioSegment :=
  normalizeSeg
    (P.compressDynamicRange s.compressionThreshold s.compressionRatio
      (eqStage P s audio))

/-- `_apply_mastering`: EQ, compression, normalization, then the limiter. -/
def applyMastering (P : PydubFx) (s : MasteringProfile) (audio : AudioSegment) :
    AudioSegment :=
  limitStage s.limiterThreshold (preLimit P s audio)

/-- Arithmetic mean of a list of reals (`np.mean`; 0 for an empty list). -/
def listMean (l : List ℝ) : ℝ := l.sum / l.length

/-- The RMS computed by `_calculate_lufs`: normalize the raw samples to the
±1.0 range by the full-scale value `2 ** (sample_width * 8 - 1)` and take
the root of the mean of the squares. -/
def rmsOf (b : AudioSegment) : ℝ :=
  Real.sqrt (listMean ((b.samples.map (fun x => x / maxPossibleAmp b)).map
    (fun x => x ^ 2)))

/-- Round half-to-even to the nearest integer, as Python's builtin
`round` does. -/
def halfEvenRound (y : ℝ) : ℤ :=
  if Int.fract y = 1 / 2 then (if Even ⌊y⌋ then ⌊y⌋ else ⌊y⌋ + 1)
  else round y

/-- Python's `round(x, 1)`: round to one decimal place, ties to even. -/
def pyRound1 (x : ℝ) : ℝ := (halfEvenRound (10 * x) : ℝ) / 10

/-- `_calculate_lufs`: the simplified integrated loudness — `20 *
log10(rms) - 0.691` when `rms > 0`, else the floor value `-70` — rounded to
one decimal place by the final `round(lufs, 1)`. -/
def calculateLufs (b : AudioSegment) : ℝ :=
  pyRound1 (if 0 < rmsOf b then 20 * Real.logb 10 (rmsOf b) - 0.691 else -70)

/-- The metrics-bearing result of `process` (`MasterResult`): the mastered
buffer with its duration in seconds, peak dBFS and approximate loudness. -/
structure MasterResult where
  master : AudioSegment
  durationSeconds : ℝ
  peakDb : ℝ
  lufs : ℝ

/-- The pure core of `process` after the stems and vocal takes have been
downloaded and decoded: select the profile (unknown names fall back to
`clean`), mix the stems, blend in the combined vocals when present, apply
the mastering chain and compute the metrics.  Upload of the result is
external I/O and out of scope. -/
def processCore (P : PydubFx) (storageConfigured : Bool)
    (stems : List AudioSegment) (settings : List MixSetting)
    (profileName : String) (takes : List VocalTake) :
    Except String MasterResult :=
  Except.map (fun mixed =>
    let mastered := applyMastering P (selectProfile profileName)
      (addVocals storageConfigured mixed takes)
    MasterResult.mk mastered ((framesOf mastered : ℝ) / (mastered.frameRate : ℝ))
      (maxDBFS mastered) (calculateLufs mastered))
    (mixStems stems settings)

/-! ### Basic lemmas about the buffer primitives -/

theorem foldr_max_nonneg (l : List ℝ) : 0 ≤ l.foldr max 0 := by
  induction l with
  | nil => simp
  | cons x xs ih => exact le_trans ih (le_max_right _ _)

theorem peakAmp_nonneg (b : AudioSegment) : 0 ≤ peakAmp b :=
  foldr_max_nonneg _

theorem foldr_max_map_mul (k : ℝ) (hk : 0 ≤ k) (l : List ℝ) :
    (l.map (fun x => k * x)).foldr max 0 = k * l.foldr max 0 := by
  induction l with
  | nil => simp
  | cons x xs ih => simp [ih, mul_max_of_nonneg _ _ hk]

@[simp] theorem scaleSamples_frameRate (c : ℝ) (b : AudioSegment) :
    (scaleSamples c b).frameRate = b.frameRate := rfl

@[simp] theorem scaleSamples_channels (c : ℝ) (b : AudioSegment) :
    (scaleSamples c b).channels = b.channels := rfl

@[simp] theorem scaleSamples_sampleWidth (c : ℝ) (b : AudioSegment) :
    (scaleSamples c b).sampleWidth = b.sampleWidth := rfl

@[simp] theorem scaleSamples_samples_length (c : ℝ) (b : AudioSegment) :
    (scaleSamples c b).samples.length = b.samples.length := by
  simp [scaleSamples]

@[simp] theorem maxPossibleAmp_scaleSamples (c : ℝ) (b : AudioSegment) :
    maxPossibleAmp (scaleSamples c b) = maxPossibleAmp b := rfl

theorem maxPossibleAmp_pos (b : AudioSegment) : 0 < maxPossibleAmp b :=
  zpow_pos (by norm_num) _

theorem peakAmp_scaleSamples (c : ℝ) (b : AudioSegment) :
    peakAmp (scaleSamples c b) = |c| * peakAmp b := by
  have : (b.samples.map (fun x => c * x)).map (fun x => |x|)
      = (b.samples.map (fun x => |x|)).map (fun x => |c| * x) := by
    simp [List.map_map, Function.comp, abs_mul]
  simp only [peakAmp, scaleSamples, this]
  exact foldr_max_map_mul _ (abs_nonneg c) _

theorem gainFactor_pos (g : ℝ) : 0 < (10 : ℝ) ^ (g / 20) :=
  Real.rpow_pos_of_pos (by norm_num) _

theorem peakAmp_applyGainDb (g : ℝ) (b : AudioSegment) :
    peakAmp (applyGainDb g b) = (10 : ℝ) ^ (g / 20) * peakAmp b := by
  rw [applyGainDb, peakAmp_scaleSamples, abs_of_pos (gainFactor_pos g)]

@[simp] theorem maxPossibleAmp_applyGainDb (g : ℝ) (b : AudioSegment) :
    maxPossibleAmp (applyGainDb g b) = maxPossibleAmp b := rfl

theorem logb_ten_rpow (x : ℝ) : Real.logb 10 ((10 : ℝ) ^ x) = x :=
  Real.logb_rpow (by norm_num) (by norm_num)

theorem maxDBFS_applyGainDb (g : ℝ) (b : AudioSegment)
    (h : 0 < peakAmp b) : maxDBFS (applyGainDb g b) = g + maxDBFS b := by
  have hM := maxPossibleAmp_pos b
  have hfac := gainFactor_pos g
  rw [maxDBFS, maxDBFS, peakAmp_applyGainDb, maxPossibleAmp_applyGainDb,
    mul_div_assoc, Real.logb_mul (ne_of_gt hfac)
      (ne_of_gt (div_pos h hM)), logb_ten_rpow]
  ring

@[simp] theorem normalizeSeg_frameRate (b : AudioSegment) :
    (normalizeSeg b).frameRate = b.frameRate := by
  unfold normalizeSeg; split <;> simp

@[simp] theorem normalizeSeg_channels (b : AudioSegment) :
    (normalizeSeg b).channels = b.channels := by
  unfold normalizeSeg; split <;> simp

@[simp] theorem normalizeSeg_sampleWidth (b : AudioSegment) :
    (normalizeSeg b).sampleWidth = b.sampleWidth := by
  unfold normalizeSeg; split <;> simp

@[simp] theorem maxPossibleAmp_normalizeSeg (b : AudioSegment) :
    maxPossibleAmp (normalizeSeg b) = maxPossibleAmp b := by
  unfold maxPossibleAmp; rw [normalizeSeg_sampleWidth]

theorem peakAmp_normalizeSeg (b : AudioSegment) (h : peakAmp b ≠ 0) :
    peakAmp (normalizeSeg b) = maxPossibleAmp b := by
  have hM := maxPossibleAmp_pos b
  have hp : 0 < peakAmp b := lt_of_le_of_ne (peakAmp_nonneg b) (Ne.symm h)
  rw [normalizeSeg, if_neg h, peakAmp_scaleSamples,
    abs_of_pos (div_pos hM hp), div_mul_cancel₀ _ (ne_of_gt hp)]

theorem maxDBFS_normalizeSeg (b : AudioSegment) (h : peakAmp b ≠ 0) :
    maxDBFS (normalizeSeg b) = 0 := by
  rw [maxDBFS, peakAmp_normalizeSeg b h, maxPossibleAmp_normalizeSeg,
    div_self (ne_of_gt (maxPossibleAmp_pos b)), Real.logb_one, mul_zero]

/-! ### Claim theorems -/

/-- C1: for every input buffer and every profile, after the mastering chain
(EQ, compression, normalization, limiting) the output peak in dBFS does not
exceed the profile's limiter threshold (stated both linearly and in dB),
and whenever the post-normalization peak exceeds the limiter threshold a
uniform gain reduction equal to the excess is applied, making the final
peak exactly equal to the threshold. -/
theorem mastering_limiter_bounds_peak (P : PydubFx) (s : MasteringProfile)
    (audio : AudioSegment) :
    peakAmp (applyMastering P s audio) ≤
      maxPossibleAmp (applyMastering P s audio) *
        (10 : ℝ) ^ (s.limiterThreshold / 20)
    ∧ (0 < peakAmp (applyMastering P s audio) →
        maxDBFS (applyMastering P s audio) ≤ s.limiterThreshold)
    ∧ (0 < peakAmp (preLimit P s audio) →
        s.limiterThreshold < maxDBFS (preLimit P s audio) →
        applyMastering P s audio =
          applyGainDb (-(maxDBFS (preLimit P s audio) - s.limiterThreshold))
            (preLimit P s audio)
        ∧ maxDBFS (applyMastering P s audio) = s.limiterThreshold) := by
  classical
  have hmaster : applyMastering P s audio =
      limitStage s.limiterThreshold
        (normalizeSeg (P.compressDynamicRange s.compressionThreshold
          s.compressionRatio (eqStage P s audio))) := rfl
  have hpre : preLimit P s audio =
      normalizeSeg (P.compressDynamicRange s.compressionThreshold
        s.compressionRatio (eqStage P s audio)) := rfl
  generalize hcdef : P.compressDynamicRange s.compressionThreshold
      s.compressionRatio (eqStage P s audio) = c at hmaster hpre
  by_cases hc : peakAmp c = 0
  · have hb : normalizeSeg c = c := by rw [normalizeSeg, if_pos hc]
    have hlim : limitStage s.limiterThreshold c = c := by
      rw [limitStage, if_neg]
      rintro ⟨h, -⟩
      rw [hc] at h
      exact lt_irrefl 0 h
    refine ⟨?_, ?_, ?_⟩
    · rw [hmaster, hb, hlim, hc]
      exact le_of_lt (mul_pos (maxPossibleAmp_pos c) (gainFactor_pos _))
    · intro h
      rw [hmaster, hb, hlim, hc] at h
      exact absurd h (lt_irrefl 0)
    · intro h1 _
      rw [hpre, hb, hc] at h1
      exact absurd h1 (lt_irrefl 0)
  · have hM : 0 < maxPossibleAmp c := maxPossibleAmp_pos c
    have hpb : 0 < peakAmp (normalizeSeg c) := by
      rw [peakAmp_normalizeSeg c hc]
      exact hM
    have hdb : maxDBFS (normalizeSeg c) = 0 := maxDBFS_normalizeSeg c hc
    by_cases hthr : s.limiterThreshold < 0
    · have hcond : 0 < peakAmp (normalizeSeg c) ∧
          s.limiterThreshold < maxDBFS (normalizeSeg c) :=
        ⟨hpb, by rw [hdb]; exact hthr⟩
      have hfire : limitStage s.limiterThreshold (normalizeSeg c) =
          applyGainDb (-(maxDBFS (normalizeSeg c) - s.limiterThreshold))
            (normalizeSeg c) := by
        rw [limitStage, if_pos hcond]
      have hgain : -(maxDBFS (normalizeSeg c) - s.limiterThreshold) =
          s.limiterThreshold := by rw [hdb]; ring
      have hout : maxDBFS (applyMastering P s audio) = s.limiterThreshold := by
        rw [hmaster, hfire, maxDBFS_applyGainDb _ _ hpb, hdb]
        ring
      refine ⟨?_, fun _ => le_of_eq hout, fun h1 h2 => ⟨?_, hout⟩⟩
      · rw [hmaster, hfire, peakAmp_applyGainDb, maxPossibleAmp_applyGainDb,
          maxPossibleAmp_normalizeSeg, hgain, peakAmp_normalizeSeg c hc]
        exact le_of_eq (mul_comm _ _)
      · rw [hmaster, hpre]
        exact hfire
    · have hcond : ¬(0 < peakAmp (normalizeSeg c) ∧
          s.limiterThreshold < maxDBFS (normalizeSeg c)) := by
        rintro ⟨-, h2⟩
        rw [hdb] at h2
        exact hthr h2
      have hnof : limitStage s.limiterThreshold (normalizeSeg c) =
          normalizeSeg c := by rw [limitStage, if_neg hcond]
      refine ⟨?_, ?_, ?_⟩
      · rw [hmaster, hnof, peakAmp_normalizeSeg c hc, maxPossibleAmp_normalizeSeg]
        exact le_mul_of_one_le_right (le_of_lt hM)
          (Real.one_le_rpow (by norm_num)
            (div_nonneg (not_lt.mp hthr) (by norm_num)))
      · intro _
        rw [hmaster, hnof, hdb]
        exact not_lt.mp hthr
      · intro _ h2
        rw [hpre, hdb] at h2
        exact absurd h2 hthr

/-- A one-sample stem used to evaluate the claim theorems concretely. -/
def demoStem : AudioSegment := ⟨44100, 1, 2, [16384]⟩

theorem demoStem_peakAmp : peakAmp demoStem = 16384 := by
  norm_num [peakAmp, demoStem]

/-- Witness for C1: a concrete run through the full mastering chain with
the `clean` profile in which the limiter fires and the final peak is
exactly the limiter threshold. -/
theorem mastering_limiter_bounds_peak_witness :
    (0 < peakAmp (preLimit pydubFxId cleanProfile demoStem)
      ∧ cleanProfile.limiterThreshold <
          maxDBFS (preLimit pydubFxId cleanProfile demoStem))
    ∧ maxDBFS (applyMastering pydubFxId cleanProfile demoStem) =
        cleanProfile.limiterThreshold := by
  have hpk : peakAmp demoStem ≠ 0 := by
    rw [demoStem_peakAmp]
    norm_num
  have hpre : preLimit pydubFxId cleanProfile demoStem =
      normalizeSeg demoStem := by
    simp [preLimit, eqStage, cleanProfile, pydubFxId]
  have h1 : 0 < peakAmp (preLimit pydubFxId cleanProfile demoStem) := by
    rw [hpre, peakAmp_normalizeSeg _ hpk]
    exact maxPossibleAmp_pos _
  have h2 : cleanProfile.limiterThreshold <
      maxDBFS (preLimit pydubFxId cleanProfile demoStem) := by
    rw [hpre, maxDBFS_normalizeSeg _ hpk]
    norm_num [cleanProfile]
  exact ⟨⟨h1, h2⟩,
    ((mastering_limiter_bounds_peak pydubFxId cleanProfile demoStem).2.2 h1 h2).2⟩

/-- Shared helper: `_mix_stems` does not raise on a non-empty stem list. -/
theorem mixStems_of_ne_nil (stems : List AudioSegment)
    (settings : List MixSetting) (h : stems ≠ []) :
    mixStems stems settings = Except.ok (mixStemsCore stems settings) := by
  cases stems with
  | nil => exact absurd rfl h
  | cons a l => rfl

/-- Shared helper: `_load_vocals` returns `None` when no storage
collaborator is configured. -/
theorem loadVocals_no_storage (takes : List VocalTake) :
    loadVocals false takes = none := by
  simp [loadVocals]

/-- Shared helper: the vocal branch of `process` leaves the mix unchanged
when no storage collaborator is configured. -/
theorem addVocals_no_storage (mixed : AudioSegment) (takes : List VocalTake) :
    addVocals false mixed takes = mixed := by
  rw [addVocals]
  split
  · rfl
  · rw [loadVocals_no_storage]

/-- C2: any profile name outside `clean`, `warm`, `loud` selects the same
settings as `clean`, and the whole pipeline behaves identically to a run
with profile `clean`; no error is raised for the unknown name. -/
theorem unknown_profile_behaves_as_clean (P : PydubFx) (storage : Bool)
    (stems : List AudioSegment) (settings : List MixSetting)
    (takes : List VocalTake) (name : String)
    (h1 : name ≠ "clean") (h2 : name ≠ "warm") (h3 : name ≠ "loud") :
    selectProfile name = cleanProfile
    ∧ processCore P storage stems settings name takes =
        processCore P storage stems settings ("clean") takes := by
  have hsel : selectProfile name = cleanProfile := by
    simp [selectProfile, lookupProfile, h1, h2, h3]
  have hclean : selectProfile ("clean") = cleanProfile := by
    simp [selectProfile, lookupProfile]
  refine ⟨hsel, ?_⟩
  unfold processCore
  rw [hsel, hclean]

/-- Witness for C2: the unknown profile name `disco` yields exactly the
`clean` pipeline on a concrete input. -/
theorem unknown_profile_behaves_as_clean_witness :
    selectProfile ("disco") = cleanProfile
    ∧ processCore pydubFxId false [demoStem] [] ("disco") [] =
        processCore pydubFxId false [demoStem] [] ("clean") [] :=
  unknown_profile_behaves_as_clean pydubFxId false [demoStem] [] [] ("disco")
    (by decide) (by decide) (by decide)

/-- C9: mixing raises exactly on an empty stem list — the error for `[]` is
the malformed-input `ValueError("No stems provided")`, and every non-empty
stem list produces a normal result. -/
theorem mix_raises_iff_empty :
    (∀ settings : List MixSetting,
      mixStems [] settings = Except.error ("No stems provided"))
    ∧ ∀ (stems : List AudioSegment) (settings : List MixSetting),
        stems ≠ [] →
        mixStems stems settings = Except.ok (mixStemsCore stems settings) := by
  exact ⟨fun _ => rfl, mixStems_of_ne_nil⟩

/-- Witness for C9: the non-empty branch at a concrete one-stem input. -/
theorem mix_raises_iff_empty_witness :
    ([demoStem] ≠ ([] : List AudioSegment))
    ∧ mixStems [demoStem] [] = Except.ok (mixStemsCore [demoStem] []) :=
  ⟨by simp, mix_raises_iff_empty.2 [demoStem] [] (by simp)⟩

/-- C10: with no storage collaborator configured, the vocal-combination
step returns `None` rather than raising, so the vocal overlay is skipped
and the pipeline result is the same as a request without vocal takes. -/
theorem no_storage_skips_vocals (P : PydubFx) (stems : List AudioSegment)
    (settings : List MixSetting) (name : String) (takes : List VocalTake)
    (mixed : AudioSegment) :
    loadVocals false takes = none
    ∧ addVocals false mixed takes = mixed
    ∧ processCore P false stems settings name takes =
        processCore P false stems settings name [] := by
  refine ⟨loadVocals_no_storage takes, addVocals_no_storage mixed takes, ?_⟩
  unfold processCore
  congr 1
  funext m
  rw [addVocals_no_storage, addVocals_no_storage]

/-! ### Lemmas about the mixing fold -/

@[simp] theorem overlay_frameRate (a b : AudioSegment) :
    (overlay a b).frameRate = a.frameRate := rfl

@[simp] theorem overlay_channels (a b : AudioSegment) :
    (overlay a b).channels = a.channels := rfl

@[simp] theorem overlay_sampleWidth (a b : AudioSegment) :
    (overlay a b).sampleWidth = a.sampleWidth := rfl

@[simp] theorem overlaySamples_length (a b : List ℝ) :
    (overlaySamples a b).length = max a.length b.length := by
  simp [overlaySamples]

@[simp] theorem overlay_samples_length (a b : AudioSegment) :
    (overlay a b).samples.length = max a.samples.length b.samples.length := by
  simp [overlay]

@[simp] theorem volumeStep_samples_length (v : ℝ) (b : AudioSegment) :
    (volumeStep v b).samples.length = b.samples.length := by
  rw [volumeStep]
  split
  · simp [applyGainDb]
  · rfl

@[simp] theorem panWeighted_samples_length (p : ℝ) (b : AudioSegment) :
    (panWeighted p b).samples.length = b.samples.length := by
  rw [panWeighted]
  split
  · simp
  · rfl

@[simp] theorem panStep_samples_length (p : ℝ) (b : AudioSegment) :
    (panStep p b).samples.length = b.samples.length := by
  rw [panStep]
  split
  · simp
  · rfl

theorem stemContribution_length (hs : Bool) (s : MixSetting)
    (stem st : AudioSegment) (h : stemContribution hs s stem = some st) :
    st.samples.length = stem.samples.length := by
  rw [stemContribution] at h
  split at h
  · exact absurd h (by simp)
  · split at h
    · exact absurd h (by simp)
    · injection h with h
      rw [← h]
      simp

/-- Shared helper: a stem whose setting leaves volume at 1.0 and pan at 0
and which is not suppressed contributes exactly itself. -/
theorem stemContribution_passthrough (hs : Bool) (s : MixSetting)
    (stem : AudioSegment) (hv : s.volume = 1) (hp : s.pan = 0)
    (hm : s.mute = false) (hsolo : hs = false ∨ s.solo = true) :
    stemContribution hs s stem = some stem := by
  rw [stemContribution, if_neg (by simp [hm]), if_neg]
  · rw [hv, hp]
    simp [volumeStep, panStep]
  · rcases hsolo with h | h <;> simp [h]

theorem mixFold_nil (hs : Bool) (settings : List MixSetting)
    (acc : AudioSegment) : mixFold hs settings [] acc = acc := rfl

theorem mixFold_cons (hs : Bool) (settings : List MixSetting)
    (p : ℕ × AudioSegment) (ps : List (ℕ × AudioSegment)) (acc : AudioSegment) :
    mixFold hs settings (p :: ps) acc =
      mixFold hs settings ps
        (match stemContribution hs (settingFor settings p.1) p.2 with
         | none => acc
         | some st => overlay acc st) := rfl

theorem mixFold_channels (hs : Bool) (settings : List MixSetting) :
    ∀ (pairs : List (ℕ × AudioSegment)) (acc : AudioSegment),
      (mixFold hs settings pairs acc).channels = acc.channels := by
  intro pairs
  induction pairs with
  | nil => intro acc; rfl
  | cons p ps ih =>
    intro acc
    rw [mixFold_cons, ih]
    cases stemContribution hs (settingFor settings p.1) p.2 <;> rfl

theorem mixFold_frameRate (hs : Bool) (settings : List MixSetting) :
    ∀ (pairs : List (ℕ × AudioSegment)) (acc : AudioSegment),
      (mixFold hs settings pairs acc).frameRate = acc.frameRate := by
  intro pairs
  induction pairs with
  | nil => intro acc; rfl
  | cons p ps ih =>
    intro acc
    rw [mixFold_cons, ih]
    cases stemContribution hs (settingFor settings p.1) p.2 <;> rfl

theorem mixFold_length (hs : Bool) (settings : List MixSetting) :
    ∀ (pairs : List (ℕ × AudioSegment)) (acc : AudioSegment),
      (∀ p ∈ pairs, p.2.samples.length ≤ acc.samples.length) →
      (mixFold hs settings pairs acc).samples.length = acc.samples.length := by
  intro pairs
  induction pairs with
  | nil => intro acc _; rfl
  | cons p ps ih =>
    intro acc hb
    rw [mixFold_cons]
    cases hst : stemContribution hs (settingFor settings p.1) p.2 with
    | none => exact ih acc (fun q hq => hb q (List.mem_cons_of_mem _ hq))
    | some st =>
      have hlst : st.samples.length = p.2.samples.length :=
        stemContribution_length _ _ _ _ hst
      have hps : (overlay acc st).samples.length = acc.samples.length := by
        rw [overlay_samples_length, hlst,
          max_eq_left (hb p (List.mem_cons_self _ _))]
      rw [ih (overlay acc st) (fun q hq => by
        rw [hps]; exact hb q (List.mem_cons_of_mem _ hq)), hps]

theorem mixFold_skip (hs : Bool) (settings : List MixSetting) :
    ∀ (pairs : List (ℕ × AudioSegment)) (acc : AudioSegment),
      (∀ p ∈ pairs, stemContribution hs (settingFor settings p.1) p.2 = none) →
      mixFold hs settings pairs acc = acc := by
  intro pairs
  induction pairs with
  | nil => intro acc _; rfl
  | cons p ps ih =>
    intro acc hb
    rw [mixFold_cons, hb p (List.mem_cons_self _ _)]
    exact ih acc (fun q hq => hb q (List.mem_cons_of_mem _ hq))

theorem framesOf_le_maxFrames (s : AudioSegment) (stems : List AudioSegment)
    (h : s ∈ stems) : framesOf s ≤ maxFrames stems := by
  induction stems with
  | nil => cases h
  | cons a l ih =>
    rcases List.mem_cons.mp h with rfl | hmem
    · exact le_max_left _ _
    · exact le_trans (ih hmem) (le_max_right _ _)

theorem exists_attains_maxFrames (stems : List AudioSegment)
    (h : stems ≠ []) : ∃ s ∈ stems, maxFrames stems ≤ framesOf s := by
  induction stems with
  | nil => exact absurd rfl h
  | cons a l ih =>
    cases l with
    | nil =>
      refine ⟨a, List.mem_cons_self _ _, ?_⟩
      simp [maxFrames]
    | cons b m =>
      obtain ⟨s, hmem, hle⟩ := ih (by simp)
      rcases le_total (framesOf a) (maxFrames (b :: m)) with hab | hab
      · refine ⟨s, List.mem_cons_of_mem _ hmem, ?_⟩
        have : maxFrames (a :: b :: m) = maxFrames (b :: m) := max_eq_right hab
        rw [this]
        exact hle
      · refine ⟨a, List.mem_cons_self _ _, ?_⟩
        have : maxFrames (a :: b :: m) = framesOf a := max_eq_left hab
        rw [this]

theorem longestStem_spec (stems : List AudioSegment) (h : stems ≠ []) :
    longestStem stems ∈ stems
    ∧ framesOf (longestStem stems) = maxFrames stems := by
  obtain ⟨s, hmem, hle⟩ := exists_attains_maxFrames stems h
  have hfind : (stems.find? (fun t => decide (maxFrames stems ≤ framesOf t))).isSome := by
    rw [List.find?_isSome]
    exact ⟨s, hmem, by simpa using hle⟩
  obtain ⟨t, ht⟩ := Option.isSome_iff_exists.mp hfind
  have hmem2 := List.mem_of_find?_eq_some ht
  have hp := List.find?_some ht
  rw [longestStem, ht, Option.getD_some]
  exact ⟨hmem2, le_antisymm (framesOf_le_maxFrames t stems hmem2) (by simpa using hp)⟩

@[simp] theorem silentLike_channels (t : AudioSegment) (n : ℕ) :
    (silentLike t n).channels = t.channels := rfl

@[simp] theorem silentLike_frameRate (t : AudioSegment) (n : ℕ) :
    (silentLike t n).frameRate = t.frameRate := rfl

@[simp] theorem silentLike_samples_length (t : AudioSegment) (n : ℕ) :
    (silentLike t n).samples.length = n * t.channels := by
  simp [silentLike]

/-- C3: for every non-empty stem list (with conformant stems, as the spec
assumes), mixing succeeds, the accumulation starts from an all-zero silent
buffer of the maximal stem length carrying the longest stem's channel count
and sample rate, and the output length in frames equals the maximum length
among all stems. -/
theorem mix_output_length (stems : List AudioSegment)
    (settings : List MixSetting) (hne : stems ≠ []) (c : ℕ) (hc : 0 < c)
    (hch : ∀ s ∈ stems, s.channels = c)
    (hdiv : ∀ s ∈ stems, s.samples.length = framesOf s * c) :
    mixStems stems settings = Except.ok (mixStemsCore stems settings)
    ∧ mixStemsCore stems settings =
        mixFold (settings.any (fun s => s.solo)) settings stems.enum
          (silentLike (longestStem stems) (maxFrames stems))
    ∧ (silentLike (longestStem stems) (maxFrames stems)).samples =
        List.replicate (maxFrames stems * c) 0
    ∧ (silentLike (longestStem stems) (maxFrames stems)).channels = c
    ∧ (silentLike (longestStem stems) (maxFrames stems)).frameRate =
        (longestStem stems).frameRate
    ∧ framesOf (mixStemsCore stems settings) = maxFrames stems := by
  obtain ⟨hmem, hlen⟩ := longestStem_spec stems hne
  have hcl : (longestStem stems).channels = c := hch _ hmem
  have hbase : (silentLike (longestStem stems) (maxFrames stems)).samples.length
      = maxFrames stems * c := by rw [silentLike_samples_length, hcl]
  refine ⟨mixStems_of_ne_nil stems settings hne, rfl, ?_, ?_, rfl, ?_⟩
  · simp [silentLike, hcl]
  · rw [silentLike_channels, hcl]
  · have hbound : ∀ p ∈ stems.enum, p.2.samples.length ≤
        (silentLike (longestStem stems) (maxFrames stems)).samples.length := by
      intro p hp
      have h2 := List.mem_enum_iff_getElem?.mp hp
      obtain ⟨hlt, heq⟩ := List.getElem?_eq_some.mp h2
      have hm : p.2 ∈ stems := heq ▸ stems.getElem_mem hlt
      rw [hbase, hdiv _ hm]
      exact Nat.mul_le_mul_right c (framesOf_le_maxFrames _ _ hm)
    have hflen := mixFold_length (settings.any (fun s => s.solo)) settings
      stems.enum _ hbound
    have hfch := mixFold_channels (settings.any (fun s => s.solo)) settings
      stems.enum (silentLike (longestStem stems) (maxFrames stems))
    unfold mixStemsCore
    unfold framesOf
    rw [hflen, hfch, silentLike_channels, hcl, hbase]
    exact Nat.mul_div_cancel _ hc

/-- Witness for C3: a concrete one-stem mix whose output length is the
stem's length. -/
theorem mix_output_length_witness :
    (([demoStem] : List AudioSegment) ≠ []
      ∧ (∀ s ∈ ([demoStem] : List AudioSegment), s.channels = 1)
      ∧ (∀ s ∈ ([demoStem] : List AudioSegment),
          s.samples.length = framesOf s * 1))
    ∧ framesOf (mixStemsCore [demoStem] []) = maxFrames [demoStem] := by
  have h1 : ([demoStem] : List AudioSegment) ≠ [] := by simp
  have h3 : ∀ s ∈ ([demoStem] : List AudioSegment), s.channels = 1 := by
    intro s hs
    rw [List.mem_singleton] at hs
    subst hs
    rfl
  have h4 : ∀ s ∈ ([demoStem] : List AudioSegment),
      s.samples.length = framesOf s * 1 := by
    intro s hs
    rw [List.mem_singleton] at hs
    subst hs
    rfl
  exact ⟨⟨h1, h3, h4⟩,
    (mix_output_length [demoStem] [] h1 1 Nat.one_pos h3 h4).2.2.2.2.2⟩

/-- C4: a muted stem contributes nothing; when any setting in the whole
list is soloed, every stem whose own solo flag is false contributes
nothing regardless of mute; a stem contributes only when it passes both
filters; and muting every stem yields the all-zero silent buffer of the
correct length. -/
theorem mute_and_solo_suppress (hs : Bool) (s : MixSetting)
    (stem : AudioSegment) (stems : List AudioSegment)
    (settings : List MixSetting) :
    (s.mute = true → stemContribution hs s stem = none)
    ∧ (hs = true → s.solo = false → stemContribution hs s stem = none)
    ∧ (stemContribution hs s stem ≠ none →
        s.mute = false ∧ (hs = true → s.solo = true))
    ∧ (stems ≠ [] →
        (∀ i, i < stems.length → (settingFor settings i).mute = true) →
        mixStems stems settings =
          Except.ok (silentLike (longestStem stems) (maxFrames stems))
        ∧ (silentLike (longestStem stems) (maxFrames stems)).samples =
            List.replicate (maxFrames stems * (longestStem stems).channels) 0) := by
  refine ⟨?_, ?_, ?_, ?_⟩
  · intro h
    rw [stemContribution, if_pos h]
  · intro h1 h2
    simp [stemContribution, h1, h2]
  · intro h
    constructor
    · cases hmu : s.mute with
      | false => rfl
      | true => exact absurd (by rw [stemContribution, if_pos hmu]) h
    · intro hh
      cases hso : s.solo with
      | true => rfl
      | false => exact absurd (by simp [stemContribution, hh, hso]) h
  · intro hne hmute
    have hskip : ∀ p ∈ stems.enum,
        stemContribution (settings.any (fun t => t.solo))
          (settingFor settings p.1) p.2 = none := by
      intro p hp
      have h2 := List.mem_enum_iff_getElem?.mp hp
      obtain ⟨hlt, -⟩ := List.getElem?_eq_some.mp h2
      rw [stemContribution, if_pos (hmute p.1 hlt)]
    constructor
    · rw [mixStems_of_ne_nil stems settings hne]
      congr 1
      unfold mixStemsCore
      exact mixFold_skip _ settings stems.enum _ hskip
    · simp [silentLike]

/-- A fully-muted setting used to evaluate the suppression theorem. -/
def muteSetting : MixSetting := ⟨1, 0, true, false⟩

/-- Witness for C4: a concrete muted one-stem mix yields the silent
buffer. -/
theorem mute_and_solo_suppress_witness :
    (muteSetting.mute = true
      ∧ stemContribution false muteSetting demoStem = none)
    ∧ mixStems [demoStem] [muteSetting] =
        Except.ok (silentLike (longestStem [demoStem]) (maxFrames [demoStem])) := by
  have hm : muteSetting.mute = true := rfl
  have hall : ∀ i, i < ([demoStem] : List AudioSegment).length →
      (settingFor [muteSetting] i).mute = true := by
    intro i hi
    have h0 : i = 0 := Nat.lt_one_iff.mp hi
    subst h0
    rfl
  exact ⟨⟨hm, (mute_and_solo_suppress false muteSetting demoStem
      [demoStem] [muteSetting]).1 hm⟩,
    ((mute_and_solo_suppress false muteSetting demoStem [demoStem]
      [muteSetting]).2.2.2 (by simp) hall).1⟩

/-! ### Pointwise characterization of overlay -/

theorem getD_overlaySamples (a b : List ℝ) (i : ℕ) :
    (overlaySamples a b).getD i 0 = a.getD i 0 + b.getD i 0 := by
  by_cases h : i < max a.length b.length
  · rw [overlaySamples, List.getD_eq_getElem _ _ (by simpa using h),
      List.getElem_map, List.getElem_range]
  · push_neg at h
    have ha : a.length ≤ i := le_trans (le_max_left _ _) h
    have hb : b.length ≤ i := le_trans (le_max_right _ _) h
    rw [List.getD_eq_default _ _ (by simpa using h),
      List.getD_eq_default _ _ ha, List.getD_eq_default _ _ hb]
    norm_num

theorem getD_replicate_real (n : ℕ) (c : ℝ) (i : ℕ) :
    (List.replicate n c).getD i 0 = if i < n then c else 0 := by
  split
  · next h =>
    rw [List.getD_eq_getElem _ _ (by simpa using h), List.getElem_replicate]
  · next h =>
    rw [List.getD_eq_default _ _ (by simpa using Nat.le_of_not_lt h)]

theorem list_eq_of_getD (a b : List ℝ) (hlen : a.length = b.length)
    (h : ∀ i, a.getD i 0 = b.getD i 0) : a = b := by
  apply List.ext_getElem hlen
  intro i h1 h2
  have hi := h i
  rwa [List.getD_eq_getElem _ _ h1, List.getD_eq_getElem _ _ h2] at hi

/-- Stem A of the spec's mixing scenario: constant amplitude 0.5 for 1000
frames, mono. -/
def stemA : AudioSegment := ⟨44100, 1, 2, List.replicate 1000 (0.5 : ℝ)⟩

/-- Stem B of the spec's mixing scenario: silence for 2000 frames, mono. -/
def stemB : AudioSegment := ⟨44100, 1, 2, List.replicate 2000 (0 : ℝ)⟩

/-- A neutral setting: volume 1.0, pan 0, no mute, no solo. -/
def unitSetting : MixSetting := ⟨1, 0, false, false⟩

/-- The mix of the scenario's two stems with neutral settings. -/
def mixedAB : AudioSegment :=
  mixStemsCore [stemA, stemB] [unitSetting, unitSetting]

theorem framesOf_stemA : framesOf stemA = 1000 := by
  simp [framesOf, stemA]

theorem framesOf_stemB : framesOf stemB = 2000 := by
  simp [framesOf, stemB]

theorem maxFrames_AB : maxFrames [stemA, stemB] = 2000 := by
  simp [maxFrames, framesOf_stemA, framesOf_stemB]

theorem longestStem_AB : longestStem [stemA, stemB] = stemB := by
  unfold longestStem
  simp only [maxFrames_AB]
  rw [List.find?_cons_of_neg _ (by simp [framesOf_stemA]),
    List.find?_cons_of_pos _ (by simp [framesOf_stemB]), Option.getD_some]

theorem contribution_stemA :
    stemContribution false unitSetting stemA = some stemA :=
  stemContribution_passthrough false unitSetting stemA rfl rfl rfl (Or.inl rfl)

theorem contribution_stemB :
    stemContribution false unitSetting stemB = some stemB :=
  stemContribution_passthrough false unitSetting stemB rfl rfl rfl (Or.inl rfl)

theorem mixedAB_eq :
    mixedAB = overlay (overlay (silentLike stemB 2000) stemA) stemB := by
  have hsolo : ([unitSetting, unitSetting].any (fun s => s.solo)) = false := rfl
  have henum : ([stemA, stemB] : List AudioSegment).enum
      = [(0, stemA), (1, stemB)] := rfl
  have hs0 : settingFor [unitSetting, unitSetting] 0 = unitSetting := rfl
  have hs1 : settingFor [unitSetting, unitSetting] 1 = unitSetting := rfl
  unfold mixedAB mixStemsCore
  rw [hsolo, henum, longestStem_AB, maxFrames_AB, mixFold_cons, mixFold_cons,
    mixFold_nil]
  simp only [hs0, hs1, contribution_stemA, contribution_stemB]

theorem overlay_samples_def (a b : AudioSegment) :
    (overlay a b).samples = overlaySamples a.samples b.samples := rfl

theorem silentLike_stemB_samples :
    (silentLike stemB 2000).samples = List.replicate 2000 (0 : ℝ) := by
  unfold silentLike
  norm_num [stemB]

theorem mixedAB_samples :
    mixedAB.samples =
      List.replicate 1000 (0.5 : ℝ) ++ List.replicate 1000 (0 : ℝ) := by
  have hsm : mixedAB.samples =
      overlaySamples (overlaySamples (List.replicate 2000 (0 : ℝ))
        (List.replicate 1000 (0.5 : ℝ))) (List.replicate 2000 (0 : ℝ)) := by
    rw [mixedAB_eq, overlay_samples_def, overlay_samples_def,
      silentLike_stemB_samples,
      show stemA.samples = List.replicate 1000 (0.5 : ℝ) from rfl,
      show stemB.samples = List.replicate 2000 (0 : ℝ) from rfl]
  rw [hsm]
  apply list_eq_of_getD
  · simp
  · intro i
    rw [getD_overlaySamples, getD_overlaySamples, getD_replicate_real,
      getD_replicate_real]
    by_cases h1 : i < 1000
    · have h2 : i < 2000 := lt_trans h1 (by norm_num)
      rw [List.getD_append _ _ _ _ (by simpa using h1), getD_replicate_real]
      simp [h1, h2]
    · by_cases h2 : i < 2000
      · rw [List.getD_append_right _ _ _ _ (by simpa using Nat.le_of_not_lt h1),
          getD_replicate_real]
        simp [h1, h2]
      · rw [List.getD_eq_default _ _ (by simpa using Nat.le_of_not_lt h2)]
        simp [h1, h2]

/-- C5: overlaying is a purely additive, position-0-aligned combination —
sample `i` of the overlay is the sum of the operands' samples at `i`, the
result length is the longer operand's, the shorter operand's contribution
ends at its own length, and no clipping is applied; concretely, mixing
stem A (0.5 for 1000 frames) with stem B (silence for 2000 frames) at
neutral settings gives 2000 frames: 1000 samples of 0.5 followed by 1000
samples of 0. -/
theorem overlay_additive (base other : AudioSegment) (i : ℕ) :
    (overlay base other).samples.getD i 0 =
      base.samples.getD i 0 + other.samples.getD i 0
    ∧ (overlay base other).samples.length =
        max base.samples.length other.samples.length
    ∧ (other.samples.length ≤ i →
        (overlay base other).samples.getD i 0 = base.samples.getD i 0)
    ∧ mixStems [stemA, stemB] [unitSetting, unitSetting] = Except.ok mixedAB
    ∧ mixedAB.samples =
        List.replicate 1000 (0.5 : ℝ) ++ List.replicate 1000 (0 : ℝ)
    ∧ framesOf mixedAB = 2000 := by
  refine ⟨getD_overlaySamples _ _ i, overlay_samples_length _ _, ?_, ?_, mixedAB_samples, ?_⟩
  · intro h
    rw [show (overlay base other).samples
        = overlaySamples base.samples other.samples from rfl,
      getD_overlaySamples, List.getD_eq_default _ _ h, add_zero]
  · exact mixStems_of_ne_nil _ _ (by simp)
  · rw [framesOf, mixedAB_samples]
    have hch : mixedAB.channels = 1 := by
      rw [mixedAB_eq]
      rfl
    rw [hch]
    simp

/-- Witness for C5: beyond the end of the shorter (overlaid) buffer the
overlay equals the base — evaluated at index 1500 of stem B overlaid with
stem A. -/
theorem overlay_additive_witness :
    stemA.samples.length ≤ 1500
    ∧ (overlay stemB stemA).samples.getD 1500 0 = stemB.samples.getD 1500 0 := by
  have h : stemA.samples.length ≤ 1500 := by simp [stemA]
  exact ⟨h, (overlay_additive stemB stemA 1500).2.2.1 h⟩

/-! ### Vocal combination -/

/-- The additive combination of the tail takes onto the first take's
buffer, each with its volume gain applied — the `some`-branch accumulation
of `_load_vocals` written as a plain fold. -/
def combineTakes (t : VocalTake) (ts : List VocalTake) : AudioSegment :=
  ts.foldl (fun c v => overlay c (volumeStep v.volume v.buffer))
    (volumeStep t.volume t.buffer)

theorem loadVocals_fold (l : List VocalTake) (c : AudioSegment) :
    l.foldl (fun acc t =>
      let vocal := volumeStep t.volume t.buffer
      match acc with
      | none => some vocal
      | some c0 => some (overlay c0 vocal)) (some c)
    = some (l.foldl (fun c0 v => overlay c0 (volumeStep v.volume v.buffer)) c) := by
  induction l generalizing c with
  | nil => rfl
  | cons x xs ih =>
    rw [List.foldl_cons, List.foldl_cons]
    exact ih _

theorem loadVocals_cons (t : VocalTake) (ts : List VocalTake) :
    loadVocals true (t :: ts) = some (combineTakes t ts) := by
  rw [loadVocals, if_neg (by simp), List.foldl_cons]
  exact loadVocals_fold ts _

theorem foldl_max_foldr (n : ℕ) (l : List ℕ) :
    l.foldl max n = max n (l.foldr max 0) := by
  induction l generalizing n with
  | nil => simp
  | cons x xs ih =>
    rw [List.foldl_cons, List.foldr_cons, ih, max_assoc]

theorem vocalsFold_length (l : List VocalTake) (c : AudioSegment) :
    (l.foldl (fun c0 v => overlay c0 (volumeStep v.volume v.buffer)) c).samples.length
    = (l.map (fun v => v.buffer.samples.length)).foldl max c.samples.length := by
  induction l generalizing c with
  | nil => rfl
  | cons x xs ih =>
    rw [List.foldl_cons, List.map_cons, List.foldl_cons, ih]
    congr 1
    simp

theorem combineTakes_length (t : VocalTake) (ts : List VocalTake) :
    (combineTakes t ts).samples.length =
      ((t :: ts).map (fun v => v.buffer.samples.length)).foldr max 0 := by
  rw [combineTakes, vocalsFold_length, foldl_max_foldr, List.map_cons,
    List.foldr_cons, volumeStep_samples_length]

/-- C7: with storage configured, `_load_vocals` returns `None` exactly on
an empty take list; a non-empty list yields the first take (with its volume
gain) as the base with every later take overlaid additively in input
order; and the combined buffer's length is the maximum take length, i.e.
the overlay extends the base whenever a later take is longer. -/
theorem combine_vocals_overlay (takes : List VocalTake) (t : VocalTake)
    (ts : List VocalTake) :
    (loadVocals true takes = none ↔ takes = [])
    ∧ loadVocals true (t :: ts) = some (combineTakes t ts)
    ∧ (combineTakes t ts).samples.length =
        ((t :: ts).map (fun v => v.buffer.samples.length)).foldr max 0 := by
  refine ⟨?_, loadVocals_cons t ts, combineTakes_length t ts⟩
  constructor
  · intro h
    cases takes with
    | nil => rfl
    | cons a l =>
      rw [loadVocals_cons] at h
      exact absurd h (by simp)
  · intro h
    subst h
    rfl

/-- Witness for C7: two concrete takes where the second is longer than the
first — the combined buffer is present and extends to the longer take. -/
theorem combine_vocals_overlay_witness :
    loadVocals true
        [VocalTake.mk (AudioSegment.mk 44100 1 2 [1]) 1,
         VocalTake.mk (AudioSegment.mk 44100 1 2 [2, 3]) 1]
      = some (combineTakes (VocalTake.mk (AudioSegment.mk 44100 1 2 [1]) 1)
          [VocalTake.mk (AudioSegment.mk 44100 1 2 [2, 3]) 1])
    ∧ (combineTakes (VocalTake.mk (AudioSegment.mk 44100 1 2 [1]) 1)
        [VocalTake.mk (AudioSegment.mk 44100 1 2 [2, 3]) 1]).samples.length = 2 := by
  refine ⟨(combine_vocals_overlay [] (VocalTake.mk (AudioSegment.mk 44100 1 2 [1]) 1)
      [VocalTake.mk (AudioSegment.mk 44100 1 2 [2, 3]) 1]).2.1, ?_⟩
  rw [(combine_vocals_overlay [] (VocalTake.mk (AudioSegment.mk 44100 1 2 [1]) 1)
      [VocalTake.mk (AudioSegment.mk 44100 1 2 [2, 3]) 1]).2.2]
  simp

/-- C8: the setting applied to stem `i` is `settings[i]` when it exists and
the default (volume 1.0, pan 0, mute and solo false) otherwise; a volume
different from 1.0 applies exactly the gain `20 * log10(max(volume, 0.001))`
dB to every sample; and a contributing stem with volume 1.0 and pan 0.0 is
passed through numerically unchanged. -/
theorem settings_defaults_and_volume (settings : List MixSetting) (i : ℕ)
    (v : ℝ) (stem : AudioSegment) (s : MixSetting) (hs : Bool) :
    (∀ h : i < settings.length, settingFor settings i = settings[i])
    ∧ (settings.length ≤ i → settingFor settings i = ⟨1, 0, false, false⟩)
    ∧ (v ≠ 1 → volumeStep v stem =
        applyGainDb (20 * Real.logb 10 (max v 0.001)) stem)
    ∧ (v ≠ 1 → (volumeStep v stem).samples = stem.samples.map
        (fun x => (10 : ℝ) ^ ((20 * Real.logb 10 (max v 0.001)) / 20) * x))
    ∧ (s.volume = 1 → s.pan = 0 → s.mute = false →
        (hs = true → s.solo = true) →
        stemContribution hs s stem = some stem) := by
  refine ⟨?_, ?_, ?_, ?_, ?_⟩
  · intro h
    exact List.getD_eq_getElem settings default h
  · intro h
    exact List.getD_eq_default settings default h
  · intro h
    rw [volumeStep, if_pos h]
  · intro h
    rw [volumeStep, if_pos h]
    rfl
  · intro hv hp hm hsolo
    apply stemContribution_passthrough hs s stem hv hp hm
    cases hhs : hs with
    | false => exact Or.inl rfl
    | true => exact Or.inr (hsolo hhs)

/-- Witness for C8: the dB conversion branch evaluated at volume 0.5. -/
theorem settings_defaults_and_volume_witness :
    ((0.5 : ℝ) ≠ 1)
    ∧ volumeStep 0.5 demoStem =
        applyGainDb (20 * Real.logb 10 (max (0.5 : ℝ) 0.001)) demoStem := by
  have h : (0.5 : ℝ) ≠ 1 := by norm_num
  exact ⟨h,
    (settings_defaults_and_volume [] 0 0.5 demoStem muteSetting false).2.2.1 h⟩

/-! ### The loudness metric -/

theorem maxPossibleAmp_width2 (b : AudioSegment) (h : b.sampleWidth = 2) :
    maxPossibleAmp b = 32768 := by
  rw [maxPossibleAmp, h]
  norm_num

/-- A one-sample buffer sitting exactly at full scale for 16-bit width. -/
def fullScaleStem : AudioSegment := ⟨44100, 1, 2, [(32768 : ℝ)]⟩

theorem rmsOf_fullScaleStem : rmsOf fullScaleStem = 1 := by
  rw [rmsOf, maxPossibleAmp_width2 fullScaleStem rfl]
  norm_num [fullScaleStem, listMean]

theorem pyRound1_neg691 : pyRound1 (-0.691) = -0.7 := by
  have h10 : (10 : ℝ) * (-0.691) = -6.91 := by norm_num
  have hfl : ⌊(-6.91 : ℝ)⌋ = -7 := by
    rw [Int.floor_eq_iff]
    constructor <;> norm_num
  have hfr : Int.fract (-6.91 : ℝ) = 0.09 := by
    rw [Int.fract, hfl]
    norm_num
  have hrd : round (-6.91 : ℝ) = -7 := by
    rw [round_eq, show (-6.91 : ℝ) + 1 / 2 = -6.41 by norm_num]
    rw [Int.floor_eq_iff]
    constructor <;> norm_num
  rw [pyRound1, halfEvenRound, h10, if_neg (by rw [hfr]; norm_num), hrd]
  norm_num

theorem pyRound1_neg70 : pyRound1 (-70) = -70 := by
  have h700 : ((-700 : ℝ)) = ((-700 : ℤ) : ℝ) := by push_cast; ring
  have h10 : (10 : ℝ) * (-70) = -700 := by norm_num
  have hfl : ⌊(-700 : ℝ)⌋ = -700 := by
    rw [h700, Int.floor_intCast]
  have hfr : Int.fract (-700 : ℝ) = 0 := by
    rw [Int.fract, hfl]
    push_cast
    ring
  have hrd : round (-700 : ℝ) = -700 := by
    rw [h700, round_intCast]
  rw [pyRound1, halfEvenRound, h10, if_neg (by rw [hfr]; norm_num), hrd]
  push_cast
  norm_num

/-- Counterexample for C6: on a concrete full-scale buffer the source's
`_calculate_lufs` returns `-0.7` — the one-decimal rounding of the formula
— while the claim's unrounded formula gives `-0.691`, so the two differ. -/
theorem lufs_formula_counterexample :
    calculateLufs fullScaleStem = -0.7
    ∧ 20 * Real.logb 10 (rmsOf fullScaleStem) - 0.691 = -0.691
    ∧ ¬ calculateLufs fullScaleStem =
        20 * Real.logb 10 (rmsOf fullScaleStem) - 0.691 := by
  have hf : 20 * Real.logb 10 (rmsOf fullScaleStem) - 0.691 = -0.691 := by
    rw [rmsOf_fullScaleStem, Real.logb_one]
    norm_num
  have hc : calculateLufs fullScaleStem = -0.7 := by
    rw [calculateLufs, if_pos (by rw [rmsOf_fullScaleStem]; norm_num), hf,
      pyRound1_neg691]
  exact ⟨hc, hf, by rw [hc, hf]; norm_num⟩

/-- C6 (amended): `_calculate_lufs` returns the approximate-loudness
formula rounded to one decimal place — `round(20*log10(rms) - 0.691, 1)`
when `rms > 0` and `-70` when `rms = 0` — and on a buffer of all-zero
samples it returns `-70` exactly. -/
theorem lufs_rounded_formula (b : AudioSegment) :
    (0 < rmsOf b →
      calculateLufs b = pyRound1 (20 * Real.logb 10 (rmsOf b) - 0.691))
    ∧ (rmsOf b = 0 → calculateLufs b = -70)
    ∧ ((∀ x ∈ b.samples, x = 0) → calculateLufs b = -70) := by
  have h2 : rmsOf b = 0 → calculateLufs b = -70 := by
    intro h
    rw [calculateLufs, h, if_neg (lt_irrefl 0), pyRound1_neg70]
  refine ⟨?_, h2, ?_⟩
  · intro h
    rw [calculateLufs, if_pos h]
  · intro h
    apply h2
    rw [rmsOf]
    have hsum : ((b.samples.map (fun x => x / maxPossibleAmp b)).map
        (fun x => x ^ 2)).sum = 0 := by
      apply List.sum_eq_zero
      intro y hy
      simp only [List.mem_map] at hy
      obtain ⟨x, hx, hxy⟩ := hy
      obtain ⟨z, hz, hzx⟩ := hx
      rw [← hxy, ← hzx, h z hz]
      norm_num
    rw [listMean, hsum, zero_div, Real.sqrt_zero]

/-- Witness for C6: the rounded formula evaluated on the full-scale
buffer, whose RMS is positive. -/
theorem lufs_rounded_formula_witness :
    0 < rmsOf fullScaleStem
    ∧ calculateLufs fullScaleStem =
        pyRound1 (20 * Real.logb 10 (rmsOf fullScaleStem) - 0.691) := by
  have h : 0 < rmsOf fullScaleStem := by
    rw [rmsOf_fullScaleStem]
    norm_num
  exact ⟨h, (lufs_rounded_formula fullScaleStem).1 h⟩

end

end MakeSinger
